import Mathlib

/-!
Verification of the pensieve access-control pipeline.

The developments below shallowly embed the access-control code of the
repository: the email validation schema (`src/lib/validators/email.ts`),
the perimeter proxy (`proxy` in `src/SETUP.md`), the client-ip derivation
and limiter configuration (`src/lib/utils/rateLimit.ts`), and the
`POST /api/validate-email` handler (`src/app/api/validate-email/route.ts`).

Machine strings are Lean `String`s manipulated through their `List Char`
data; effectful collaborators (the SQL store, the external rate-limit
counter, `Math.random()`) are passed in as explicit oracle values.
-/

namespace Pensieve

/-! ## Character-level utilities shared by the models

`isWs` models the JavaScript whitespace class for the characters that occur
in practice (ASCII whitespace); `lowerChar` models per-character ASCII
lowercasing (`toLowerCase` on the alphabets the repository compares).
-/

def isWs (c : Char) : Bool :=
  c = ' ' || c = '\t' || c = '\n' || c = '\r' || c = '\x0b' || c = '\x0c'

def lowerChar (c : Char) : Char :=
  if 'A' ≤ c ∧ c ≤ 'Z' then Char.ofNat (c.toNat + 32) else c

/-- JavaScript `String.prototype.trim`: drop whitespace from both ends. -/
def jsTrim (l : List Char) : List Char :=
  ((l.dropWhile isWs).reverse.dropWhile isWs).reverse

/-- JavaScript `String.prototype.toLowerCase` (ASCII fragment). -/
def jsToLower (l : List Char) : List Char := l.map lowerChar

/-! ## Email Validator (`src/lib/validators/email.ts`)

The schema is `z.string().trim().toLowerCase().email('Invalid email
format').max(254, 'Email address is too long')` wrapped in
`z.object({ email: emailSchema })`.

Modelled from the spec: the `.email()` format check is implemented inside
the third-party `zod` dependency, whose source is not part of this
repository; the spec describes the format rule as "one or more
non-whitespace, non-`@` characters, then `@`, then non-whitespace non-`@`
characters, then `.`, then non-whitespace non-`@` characters", i.e. the
regular expression `^[^\s@]+@[^\s@]+\.[^\s@]+$`, and the format checker
below implements exactly that shape.
-/

/-- A character admissible inside an email under the format rule:
not whitespace and not `@`. -/
def isEmailChar (c : Char) : Bool := !(isWs c) && c ≠ '@'

/-- Split a list at the first occurrence of `ch`, returning the parts
before and after it. -/
def splitAtChar (ch : Char) : List Char → Option (List Char × List Char)
  | [] => none
  | c :: cs =>
    if c = ch then some ([], cs)
    else
      match splitAtChar ch cs with
      | some (a, b) => some (c :: a, b)
      | none => none

/-- Does the list contain a `'.'` at some position other than the last? -/
def dotNotLast : List Char → Bool
  | [] => false
  | [_] => false
  | c :: cs => (c = '.') || dotNotLast cs

/-- Does the list decompose as `b ++ '.' :: c` with `b`, `c` nonempty? -/
def hasInteriorDot : List Char → Bool
  | [] => false
  | _ :: cs => dotNotLast cs

/-- The email format check (operational form of the regular expression
`^[^\s@]+@[^\s@]+\.[^\s@]+$`). -/
def emailFormatOk (l : List Char) : Bool :=
  match splitAtChar '@' l with
  | none => false
  | some (a, rest) =>
    !a.isEmpty && a.all isEmailChar && rest.all isEmailChar && hasInteriorDot rest

/-- Normalization applied by the schema before validation:
trim then lowercase. -/
def normalizeEmail (s : String) : String := ⟨jsToLower (jsTrim s.data)⟩

/-- The failure categories the schema can report. `required` is the
category zod reports for an absent/undefined field, `invalidType` for a
present non-string value, `invalidFormat` for the `.email()` check and
`tooLong` for the `.max(254)` check. -/
inductive EmailIssue where
  | required
  | invalidType
  | invalidFormat
  | tooLong
  deriving DecidableEq, Repr

instance exceptDecEq {ε α : Type} [DecidableEq ε] [DecidableEq α] :
    DecidableEq (Except ε α) := fun x y =>
  match x, y with
  | .ok a, .ok b =>
    if h : a = b then isTrue (by rw [h])
    else isFalse (fun he => h (Except.ok.inj he))
  | .error a, .error b =>
    if h : a = b then isTrue (by rw [h])
    else isFalse (fun he => h (Except.error.inj he))
  | .ok _, .error _ => isFalse (fun he => Except.noConfusion he)
  | .error _, .ok _ => isFalse (fun he => Except.noConfusion he)

/-- A JSON value, as produced by parsing a request body. -/
inductive JVal where
  | nullV : JVal
  | boolV : Bool → JVal
  | numV : Int → JVal
  | strV : String → JVal
  | arrV : List JVal → JVal
  | objV : List (String × JVal) → JVal

/-- Model of `emailSchema.safeParse` on an optional (possibly absent) value:
normalization first, then the format and length checks in schema order,
accumulating issues as zod does. -/
def emailSchemaParse : Option JVal → Except (List EmailIssue) String
  | none => .error [.required]
  | some (.strV s) =>
    let n := normalizeEmail s
    let issues :=
      (if emailFormatOk n.data then [] else [EmailIssue.invalidFormat]) ++
      (if n.length ≤ 254 then [] else [EmailIssue.tooLong])
    if issues.isEmpty then .ok n else .error issues
  | some _ => .error [.invalidType]

/-- Field lookup in a parsed JSON object. -/
def lookupField (fs : List (String × JVal)) (k : String) : Option JVal :=
  (fs.find? (fun p => p.1 = k)).map (fun p => p.2)

/-- Model of `validateEmailRequestSchema.safeParse`: the body must be a JSON object
and its `email` field must pass `emailSchema`. -/
def validateEmailRequestParse : JVal → Except (List EmailIssue) String
  | .objV fs => emailSchemaParse (lookupField fs "email")
  | _ => .error [.invalidType]

/-! Spec-side characterization of the accepted inputs, written after the
spec's own words: the trimmed-and-lowercased form has length between 1 and
254 and decomposes as `local ++ "@" ++ domain ++ "." ++ tld` with each part
nonempty and free of whitespace and `@`. -/

/-- The spec's email shape, as a declarative decomposition. -/
def specEmailShape (t : String) : Prop :=
  ∃ a b c : List Char,
    a ≠ [] ∧ b ≠ [] ∧ c ≠ [] ∧
    a.all isEmailChar ∧ b.all isEmailChar ∧ c.all isEmailChar ∧
    t.data = a ++ '@' :: (b ++ '.' :: c)

/-- The spec's acceptance predicate for the Email Validator. -/
def specEmailAccepts (s : String) : Prop :=
  1 ≤ (normalizeEmail s).length ∧ (normalizeEmail s).length ≤ 254 ∧
  specEmailShape (normalizeEmail s)

/-! ## Route Classifier / Access Gate (`proxy` in `src/SETUP.md`)

The proxy inspects the request pathname and the
`better-auth.session_token` cookie.  `NextResponse.redirect` issues an
HTTP 307 temporary redirect by default; the redirect target is
`new URL("/login", request.url)`, whose path is `/login`.
-/

/-- The outcome of the perimeter proxy: pass the request through, or
redirect to a location with a status code. -/
inductive ProxyResult where
  | next : ProxyResult
  | redirect : String → Nat → ProxyResult
  deriving DecidableEq, Repr

/-- The public route prefixes, exactly as listed in the source. -/
def publicRoutes : List String :=
  ["/login", "/unauthorized", "/api/auth", "/api/validate-email"]

/-- The proxy middleware.  `sessionToken` is `none` when the cookie is
absent and `some v` when present with value `v`. -/
def proxy (pathname : String) (sessionToken : Option String) : ProxyResult :=
  if publicRoutes.any (fun route => pathname.startsWith route) then
    .next
  else
    match sessionToken with
    | none => .redirect "/login" 307
    | some v =>
      if v = "" then .redirect "/login" 307
      else if v.length < 10 ∨ v.length > 500 then .redirect "/login" 307
      else .next

/-- The claim-side redirect condition for the Access Gate: the path does
not start with a public prefix, and the session cookie is absent, empty,
or has length outside `[10, 500]`. -/
def gateRedirectCond (pathname : String) (t : Option String) : Prop :=
  (¬ ∃ route ∈ publicRoutes, pathname.startsWith route) ∧
  (t = none ∨ t = some "" ∨ ∃ v, t = some v ∧ (v.length < 10 ∨ 500 < v.length))

/-! ## Rate limiter helpers (`src/lib/utils/rateLimit.ts`) -/

/-- A sliding-window limiter configuration. -/
structure SlidingWindowConfig where
  capacity : Nat
  windowSeconds : Nat
  deriving DecidableEq, Repr

/-- Config `Ratelimit.slidingWindow(5, '10 s')` for the validation endpoint. -/
def validateEmailLimiterConfig : SlidingWindowConfig := ⟨5, 10⟩

/-- Config `Ratelimit.slidingWindow(10, '10 m')`, reserved for auth endpoints. -/
def authLimiterConfig : SlidingWindowConfig := ⟨10, 600⟩

/-- Characters up to (not including) the first comma:
`s.split(',')[0]`. -/
def takeUntilComma (l : List Char) : List Char := l.takeWhile (fun c => c ≠ ',')

/-- Model of `getClientIp`: the first comma-separated value of `x-forwarded-for`,
trimmed, if truthy; else the `x-real-ip` header if present and truthy;
else `"unknown"`.  Each header is `none` when absent. -/
def getClientIp (xForwardedFor xRealIp : Option String) : String :=
  let first := jsTrim (takeUntilComma (xForwardedFor.getD "").data)
  if first ≠ [] then ⟨first⟩
  else
    match xRealIp with
    | some r => if r ≠ "" then r else "unknown"
    | none => "unknown"

/-- The claim-side formula for the client identity key, following the
spec's case split directly. -/
def clientIpSpec (xForwardedFor xRealIp : Option String) : String :=
  match xForwardedFor with
  | some f =>
    if jsTrim (takeUntilComma f.data) ≠ [] then ⟨jsTrim (takeUntilComma f.data)⟩
    else match xRealIp with
         | some r => if r ≠ "" then r else "unknown"
         | none => "unknown"
  | none =>
    match xRealIp with
    | some r => if r ≠ "" then r else "unknown"
    | none => "unknown"

/-! ## The `relation ... does not exist` message test

`route.ts` recognizes a missing-allowlist-table error by
`/relation .*allowed_emails.* does not exist/i.test(errMsg)`.  The
matcher below implements that regular expression: case-insensitive
(input lowercased against the all-lowercase pattern), unanchored search,
with `.` matching every character except a line terminator.
-/

/-- A character the regex metacharacter `.` does not match. -/
def isRegexNL (c : Char) : Bool :=
  c = '\n' || c = '\r' || c.toNat = 0x2028 || c.toNat = 0x2029

/-- Strip `lit` as a prefix of `s`, returning the remainder. -/
def stripLit : List Char → List Char → Option (List Char)
  | [], s => some s
  | _ :: _, [] => none
  | c :: cs, d :: ds => if c = d then stripLit cs ds else none

/-- Find `lit` reachable from the current position by skipping
non-line-terminator characters; return the remainder after it. -/
def seekLit (lit : List Char) : List Char → Option (List Char)
  | [] => stripLit lit []
  | c :: cs =>
    match stripLit lit (c :: cs) with
    | some r => some r
    | none => if isRegexNL c then none else seekLit lit cs

/-- Try to match `relation .*allowed_emails.* does not exist` starting at
the current position. -/
def relMatchHere (s : List Char) : Bool :=
  match stripLit "relation ".data s with
  | none => false
  | some r1 =>
    match seekLit "allowed_emails".data r1 with
    | none => false
    | some r2 => (seekLit " does not exist".data r2).isSome

/-- Unanchored search for the pattern. -/
def relSearch : List Char → Bool
  | [] => relMatchHere []
  | c :: cs => relMatchHere (c :: cs) || relSearch cs

/-- Test `/relation .*allowed_emails.* does not exist/i.test(errMsg)`. -/
def relationMissingTest (msg : String) : Bool :=
  relSearch (jsToLower msg.data)

/-! ## The `POST /api/validate-email` handler
(`src/app/api/validate-email/route.ts`)

The handler is modelled as a pure function of the environment, the
request, and oracles for its two effectful collaborators (the SQL
allowlist query and the external rate-limit counter) plus the
`Math.random()` draw used for the pre-429 jitter.
-/

/-- Environment configuration read by the handler. -/
structure Env where
  nodeEnv : String
  allowedEmails : String
  betterAuthOrigin : Option String
  databaseUrlSet : Bool
  limiterConfigured : Bool
  deriving DecidableEq, Repr

/-- The request data the handler inspects.  `rawBody = none` models a
body that fails JSON parsing (`req.json().catch(() => ({}))`). -/
structure Req where
  rawBody : Option JVal
  origin : Option String
  xForwardedFor : Option String
  xRealIp : Option String

/-- Outcome of the SQL allowlist query: a row count, or an error carrying
an optional error code and a message. -/
inductive DbOutcome where
  | rows : Nat → DbOutcome
  | err : Option String → String → DbOutcome
  deriving DecidableEq, Repr

/-- Outcome of `validateEmailLimiter.limit(...)`: quota available, quota
exceeded, or a transport error (the call threw). -/
inductive LimitOutcome where
  | allowed
  | blocked
  | errored
  deriving DecidableEq, Repr

/-- The leaf of the handler's control flow that produced the response. -/
inductive DecisionPath where
  | badRequest
  | fastPathAllow
  | fastPathDeny
  | originReject
  | rateLimited
  | rlProdError
  | misconfig
  | dbAllow
  | dbDeny
  | fallbackAllow
  | fallbackDeny
  | dbProdError
  deriving DecidableEq, Repr

/-- An HTTP response: status code and serialized JSON body. -/
structure HttpResponse where
  status : Nat
  body : String
  deriving DecidableEq, Repr

def okBody : String := "\x7b\"ok\":true\x7d"
def invalidEmailBody : String := "\x7b\"message\":\"Invalid email\"\x7d"
def invalidCredentialsBody : String := "\x7b\"message\":\"Invalid credentials\"\x7d"
def forbiddenBody : String := "\x7b\"message\":\"Forbidden\"\x7d"
def tooManyBody : String := "\x7b\"message\":\"Too many requests\"\x7d"
def validationFailedBody : String := "\x7b\"message\":\"Validation failed\"\x7d"
def misconfigBody : String := "\x7b\"message\":\"Server misconfiguration\"\x7d"

/-- Model of `ALLOWED_EMAILS.split(',').map(s => s.trim().toLowerCase()).filter(Boolean)`. -/
def splitComma : List Char → List (List Char)
  | [] => [[]]
  | c :: cs =>
    match splitComma cs with
    | [] => [[]]
    | h :: t => if c = ',' then [] :: h :: t else (c :: h) :: t

/-- The parsed in-memory allowlist. -/
def parseAllowedEmails (s : String) : List String :=
  ((splitComma s.data).map (fun l => (⟨jsToLower (jsTrim l)⟩ : String))).filter
    (fun e => e ≠ "")

/-- The production-only origin rejection test: with a parseable
`BETTER_AUTH_URL` giving prefix `pfx`, reject when the nonempty `origin`
header does not start with `pfx`.  `betterAuthOrigin = none` models the
variable being unset or unparseable (the `try \x7b ... \x7d catch \x7b\x7d`
swallows the parse failure). -/
def originRejected (origin : String) : Option String → Bool
  | some pfx => !(origin.startsWith pfx)
  | none => false

/-- The control-flow decision of the handler, mirroring `route.ts` top to
bottom: schema validation, the non-production env fast path, the
production origin check, the rate limiter, the `DATABASE_URL` check, the
store query, and the store-error fallback. -/
def decisionOf (env : Env) (req : Req) (db : DbOutcome) (limit : LimitOutcome) :
    DecisionPath :=
  match validateEmailRequestParse (req.rawBody.getD (.objV [])) with
  | .error _ => .badRequest
  | .ok email =>
    if env.nodeEnv ≠ "production" ∧ parseAllowedEmails env.allowedEmails ≠ [] then
      if (parseAllowedEmails env.allowedEmails).contains (⟨jsToLower email.data⟩ : String)
      then .fastPathAllow else .fastPathDeny
    else if env.nodeEnv = "production" ∧ (req.origin.getD "") ≠ "" ∧
            originRejected (req.origin.getD "") env.betterAuthOrigin = true then
      .originReject
    else if env.limiterConfigured = true ∧ limit = .blocked then
      .rateLimited
    else if env.limiterConfigured = true ∧ limit = .errored ∧
            env.nodeEnv = "production" then
      .rlProdError
    else if env.databaseUrlSet = false then
      .misconfig
    else
      match db with
      | .rows n => if n > 0 then .dbAllow else .dbDeny
      | .err code msg =>
        if env.nodeEnv ≠ "production" ∨ code = some "42P01" ∨
           relationMissingTest msg = true then
          if (parseAllowedEmails env.allowedEmails).contains email
          then .fallbackAllow else .fallbackDeny
        else .dbProdError

/-- The response produced at each leaf, exactly as in `route.ts`. -/
def respOf : DecisionPath → HttpResponse
  | .badRequest => ⟨400, invalidEmailBody⟩
  | .fastPathAllow => ⟨200, okBody⟩
  | .fastPathDeny => ⟨403, invalidCredentialsBody⟩
  | .originReject => ⟨403, forbiddenBody⟩
  | .rateLimited => ⟨429, tooManyBody⟩
  | .rlProdError => ⟨500, validationFailedBody⟩
  | .misconfig => ⟨500, misconfigBody⟩
  | .dbAllow => ⟨200, okBody⟩
  | .dbDeny => ⟨403, invalidCredentialsBody⟩
  | .fallbackAllow => ⟨200, okBody⟩
  | .fallbackDeny => ⟨403, invalidCredentialsBody⟩
  | .dbProdError => ⟨500, validationFailedBody⟩

/-- The jittered sleep performed before the 429 response:
`await sleep(200 + Math.random() * 300)`, with `rand` the
`Math.random()` draw. -/
def delayOf (rand : ℚ) : DecisionPath → Option ℚ
  | .rateLimited => some (200 + 300 * rand)
  | _ => none

/-- Did the execution reach past the fast path into the origin/limiter/db
section? -/
def reachedRest : DecisionPath → Bool
  | .badRequest | .fastPathAllow | .fastPathDeny => false
  | _ => true

/-- Was the production origin-check block executed? -/
def originCheckedOf (env : Env) (p : DecisionPath) : Bool :=
  reachedRest p && decide (env.nodeEnv = "production")

/-- Was `validateEmailLimiter.limit(...)` invoked? -/
def limiterConsultedOf (env : Env) : DecisionPath → Bool
  | .rateLimited | .rlProdError => true
  | .misconfig | .dbAllow | .dbDeny | .fallbackAllow | .fallbackDeny
  | .dbProdError => env.limiterConfigured
  | _ => false

/-- Was the SQL allowlist query executed? -/
def dbQueriedOf : DecisionPath → Bool
  | .dbAllow | .dbDeny | .fallbackAllow | .fallbackDeny | .dbProdError => true
  | _ => false

/-- The observable result of one handler invocation. -/
structure PostResult where
  resp : HttpResponse
  delayMs : Option ℚ
  path : DecisionPath
  originChecked : Bool
  limiterConsulted : Bool
  dbQueried : Bool
  deriving DecidableEq, Repr

/-- The `POST /api/validate-email` handler. -/
def POST (env : Env) (req : Req) (db : DbOutcome) (limit : LimitOutcome)
    (rand : ℚ) : PostResult :=
  let p := decisionOf env req db limit
  ⟨respOf p, delayOf rand p, p, originCheckedOf env p,
    limiterConsultedOf env p, dbQueriedOf p⟩

/-! ## Helper lemmas -/

theorem char_le_iff_toNat {a b : Char} : a ≤ b ↔ a.toNat ≤ b.toNat := by
  rw [Char.le_def, UInt32.le_def, BitVec.le_def]
  exact Iff.rfl

theorem toNat_ofNat_of_lt {n : Nat} (h : n < 0xD800) : (Char.ofNat n).toNat = n := by
  have hv : n.isValidChar := Or.inl h
  rw [Char.ofNat, dif_pos hv]
  rfl

theorem lowerChar_idem (c : Char) : lowerChar (lowerChar c) = lowerChar c := by
  by_cases h : 'A' ≤ c ∧ c ≤ 'Z'
  · have h65 : 65 ≤ c.toNat := char_le_iff_toNat.mp h.1
    have h90 : c.toNat ≤ 90 := char_le_iff_toNat.mp h.2
    have hval : (Char.ofNat (c.toNat + 32)).toNat = c.toNat + 32 :=
      toNat_ofNat_of_lt (by omega)
    have hlc : lowerChar c = Char.ofNat (c.toNat + 32) := by
      rw [lowerChar, if_pos h]
    rw [hlc, lowerChar, if_neg]
    intro hcontra
    have h2 : (Char.ofNat (c.toNat + 32)).toNat ≤ 90 := char_le_iff_toNat.mp hcontra.2
    rw [hval] at h2
    omega
  · have hlc : lowerChar c = c := by rw [lowerChar, if_neg h]
    rw [hlc]
    exact hlc

theorem jsToLower_idem (l : List Char) : jsToLower (jsToLower l) = jsToLower l := by
  unfold jsToLower
  rw [List.map_map]
  exact List.map_congr_left fun c _ => by
    simp only [Function.comp_apply]
    exact lowerChar_idem c

theorem dropWhile_eq_self_of_all {p : Char → Bool} :
    ∀ l : List Char, (∀ c ∈ l, p c = false) → l.dropWhile p = l
  | [], _ => rfl
  | c :: cs, h => by
    simp [List.dropWhile, h c (by simp)]

theorem jsTrim_eq_self_of_no_ws (l : List Char) (h : ∀ c ∈ l, isWs c = false) :
    jsTrim l = l := by
  unfold jsTrim
  rw [dropWhile_eq_self_of_all l h,
      dropWhile_eq_self_of_all l.reverse (fun c hc => h c (List.mem_reverse.mp hc)),
      List.reverse_reverse]

theorem splitAtChar_eq {ch : Char} :
    ∀ {l a r : List Char}, splitAtChar ch l = some (a, r) →
      l = a ++ ch :: r ∧ ch ∉ a := by
  intro l
  induction l with
  | nil => intro a r h; simp [splitAtChar] at h
  | cons c cs ih =>
    intro a r h
    by_cases hc : c = ch
    · rw [splitAtChar, if_pos hc] at h
      obtain ⟨ha, hr⟩ := Prod.mk.injEq .. ▸ Option.some.injEq .. ▸ h
      subst hc
      constructor
      · rw [← ha, ← hr]; rfl
      · rw [← ha]; exact List.not_mem_nil _
    · rw [splitAtChar, if_neg hc] at h
      cases hsplit : splitAtChar ch cs with
      | none => rw [hsplit] at h; exact absurd h (by simp)
      | some p =>
        obtain ⟨a', b⟩ := p
        rw [hsplit] at h
        simp only [Option.some.injEq, Prod.mk.injEq] at h
        obtain ⟨ha, hr⟩ := h
        obtain ⟨hcs, hnotin⟩ := ih hsplit
        subst hr
        constructor
        · rw [← ha, hcs]; rfl
        · rw [← ha]
          intro hmem
          rcases List.mem_cons.mp hmem with h1 | h2
          · exact hc h1.symm
          · exact hnotin h2

theorem splitAtChar_append {ch : Char} :
    ∀ (a r : List Char), ch ∉ a → splitAtChar ch (a ++ ch :: r) = some (a, r)
  | [], r, _ => by rw [List.nil_append, splitAtChar, if_pos rfl]
  | c :: a', r, h => by
    have hc : c ≠ ch := fun he => h (he ▸ List.mem_cons_self c a')
    have hih := splitAtChar_append a' r (fun hm => h (List.mem_cons_of_mem c hm))
    rw [List.cons_append, splitAtChar, if_neg hc, hih]

theorem dotNotLast_iff : ∀ l : List Char,
    dotNotLast l = true ↔ ∃ b c : List Char, c ≠ [] ∧ l = b ++ '.' :: c := by
  intro l
  induction l with
  | nil =>
    simp only [dotNotLast, Bool.false_eq_true, false_iff]
    rintro ⟨b, c, hc, h⟩
    exact absurd h.symm (List.append_ne_nil_of_right_ne_nil b (by simp))
  | cons x xs ih =>
    cases xs with
    | nil =>
      simp only [dotNotLast, Bool.false_eq_true, false_iff]
      rintro ⟨b, c, hc, h⟩
      have hlen := congrArg List.length h
      simp only [List.length_cons, List.length_nil, List.length_append] at hlen
      cases c with
      | nil => exact hc rfl
      | cons y ys => simp at hlen; omega
    | cons y ys =>
      constructor
      · intro h
        have h' : (decide (x = '.') || dotNotLast (y :: ys)) = true := h
        rcases Bool.or_eq_true .. ▸ h' with h1 | h2
        · refine ⟨[], y :: ys, by simp, ?_⟩
          have : x = '.' := by simpa using h1
          rw [this]; rfl
        · obtain ⟨b, c, hc, hbc⟩ := ih.mp h2
          exact ⟨x :: b, c, hc, by rw [List.cons_append, ← hbc]⟩
      · rintro ⟨b, c, hc, hbc⟩
        show (decide (x = '.') || dotNotLast (y :: ys)) = true
        cases b with
        | nil =>
          simp only [List.nil_append, List.cons.injEq] at hbc
          rw [hbc.1]
          simp
        | cons z b' =>
          simp only [List.cons_append, List.cons.injEq] at hbc
          have : dotNotLast (y :: ys) = true := ih.mpr ⟨b', c, hc, hbc.2⟩
          rw [this, Bool.or_true]

theorem hasInteriorDot_iff (l : List Char) :
    hasInteriorDot l = true ↔
      ∃ b c : List Char, b ≠ [] ∧ c ≠ [] ∧ l = b ++ '.' :: c := by
  cases l with
  | nil =>
    simp only [hasInteriorDot, Bool.false_eq_true, false_iff]
    rintro ⟨b, c, hb, hc, h⟩
    exact absurd h.symm (List.append_ne_nil_of_right_ne_nil b (by simp))
  | cons x xs =>
    rw [hasInteriorDot, dotNotLast_iff]
    constructor
    · rintro ⟨b, c, hc, hbc⟩
      exact ⟨x :: b, c, by simp, hc, by rw [List.cons_append, ← hbc]⟩
    · rintro ⟨b, c, hb, hc, hbc⟩
      cases b with
      | nil => exact absurd rfl hb
      | cons z b' =>
        simp only [List.cons_append, List.cons.injEq] at hbc
        exact ⟨b', c, hc, hbc.2⟩

theorem isEmailChar_dot : isEmailChar '.' = true := by decide

theorem isEmailChar_at_false : isEmailChar '@' = false := by decide

theorem not_mem_of_all_emailChar {a : List Char} (h : a.all isEmailChar = true) :
    '@' ∉ a := by
  intro hmem
  have := List.all_eq_true.mp h '@' hmem
  rw [isEmailChar_at_false] at this
  exact Bool.false_ne_true this

theorem emailFormatOk_iff (l : List Char) :
    emailFormatOk l = true ↔
      ∃ a b c : List Char,
        a ≠ [] ∧ b ≠ [] ∧ c ≠ [] ∧
        a.all isEmailChar ∧ b.all isEmailChar ∧ c.all isEmailChar ∧
        l = a ++ '@' :: (b ++ '.' :: c) := by
  constructor
  · intro h
    rw [emailFormatOk] at h
    cases hsplit : splitAtChar '@' l with
    | none => rw [hsplit] at h; exact absurd h (by simp)
    | some p =>
      obtain ⟨a, rest⟩ := p
      rw [hsplit] at h
      simp only [Bool.and_eq_true, Bool.not_eq_true'] at h
      obtain ⟨⟨⟨hne, hall⟩, hrest⟩, hdot⟩ := h
      obtain ⟨hl, -⟩ := splitAtChar_eq hsplit
      obtain ⟨b, c, hb, hc, hbc⟩ := (hasInteriorDot_iff rest).mp hdot
      refine ⟨a, b, c, ?_, hb, hc, hall, ?_, ?_, by rw [hl, hbc]⟩
      · intro ha; rw [ha] at hne; exact Bool.false_ne_true hne.symm
      · rw [hbc, List.all_append] at hrest
        exact (Bool.and_eq_true .. ▸ hrest).1
      · rw [hbc, List.all_append] at hrest
        have := (Bool.and_eq_true .. ▸ hrest).2
        rw [List.all_cons] at this
        exact (Bool.and_eq_true .. ▸ this).2
  · rintro ⟨a, b, c, ha, hb, hc, halla, hallb, hallc, hl⟩
    rw [emailFormatOk, hl, splitAtChar_append a _ (not_mem_of_all_emailChar halla)]
    show (!a.isEmpty && a.all isEmailChar && (b ++ '.' :: c).all isEmailChar &&
      hasInteriorDot (b ++ '.' :: c)) = true
    have hrest : (b ++ '.' :: c).all isEmailChar = true := by
      rw [List.all_append, hallb, List.all_cons, isEmailChar_dot, hallc]
      rfl
    have hdot : hasInteriorDot (b ++ '.' :: c) = true :=
      (hasInteriorDot_iff _).mpr ⟨b, c, hb, hc, rfl⟩
    rw [halla, hrest, hdot]
    have : a.isEmpty = false := by
      cases a with
      | nil => exact absurd rfl ha
      | cons z a' => rfl
    rw [this]
    rfl

theorem ws_false_of_emailChar {c : Char} (h : isEmailChar c = true) : isWs c = false := by
  rw [isEmailChar, Bool.and_eq_true, Bool.not_eq_true'] at h
  exact h.1

theorem no_ws_of_emailFormatOk {l : List Char} (h : emailFormatOk l = true) :
    ∀ c ∈ l, isWs c = false := by
  obtain ⟨a, b, c, _, _, _, halla, hallb, hallc, hl⟩ := (emailFormatOk_iff l).mp h
  intro d hd
  rw [hl] at hd
  rcases List.mem_append.mp hd with h1 | h2
  · exact ws_false_of_emailChar (List.all_eq_true.mp halla d h1)
  · rcases List.mem_cons.mp h2 with h3 | h4
    · rw [h3]; rfl
    · rcases List.mem_append.mp h4 with h5 | h6
      · exact ws_false_of_emailChar (List.all_eq_true.mp hallb d h5)
      · rcases List.mem_cons.mp h6 with h7 | h8
        · rw [h7]; rfl
        · exact ws_false_of_emailChar (List.all_eq_true.mp hallc d h8)

theorem string_mk_data (s : String) : (⟨s.data⟩ : String) = s := rfl

theorem emailSchemaParse_ok_iff (s r : String) :
    emailSchemaParse (some (.strV s)) = .ok r ↔
      emailFormatOk (normalizeEmail s).data = true ∧
      (normalizeEmail s).length ≤ 254 ∧ r = normalizeEmail s := by
  rw [emailSchemaParse]
  by_cases h1 : emailFormatOk (normalizeEmail s).data <;>
    by_cases h2 : (normalizeEmail s).length ≤ 254 <;>
    simp [h1, h2, eq_comm]

theorem parse_ok_normalize {s v : String}
    (h : emailSchemaParse (some (.strV s)) = .ok v) :
    v = normalizeEmail s ∧ emailFormatOk v.data = true ∧ v.length ≤ 254 := by
  obtain ⟨h1, h2, h3⟩ := (emailSchemaParse_ok_iff s v).mp h
  exact ⟨h3, h3 ▸ h1, h3 ▸ h2⟩

theorem normalizeEmail_fixed {s v : String} (hv : v = normalizeEmail s)
    (hfmt : emailFormatOk v.data = true) : normalizeEmail v = v := by
  have hnws : ∀ c ∈ v.data, isWs c = false := no_ws_of_emailFormatOk hfmt
  have htrim : jsTrim v.data = v.data := jsTrim_eq_self_of_no_ws v.data hnws
  have hdata : v.data = jsToLower (jsTrim s.data) := by
    rw [hv]; rfl
  have hlower : jsToLower v.data = v.data := by
    rw [hdata, jsToLower_idem]
  rw [normalizeEmail, htrim, hlower, string_mk_data]

theorem emailSchemaParse_ok_lower {o : Option JVal} {v : String}
    (h : emailSchemaParse o = .ok v) : jsToLower v.data = v.data := by
  cases o with
  | none => exact absurd h (by simp [emailSchemaParse])
  | some j =>
    cases j with
    | strV s =>
      obtain ⟨hv, -, -⟩ := parse_ok_normalize h
      have : v.data = jsToLower (jsTrim s.data) := by rw [hv]; rfl
      rw [this, jsToLower_idem]
    | nullV => exact absurd h (by simp [emailSchemaParse])
    | boolV b => exact absurd h (by simp [emailSchemaParse])
    | numV n => exact absurd h (by simp [emailSchemaParse])
    | arrV l => exact absurd h (by simp [emailSchemaParse])
    | objV l => exact absurd h (by simp [emailSchemaParse])

theorem requestParse_ok_lower {j : JVal} {v : String}
    (h : validateEmailRequestParse j = .ok v) : jsToLower v.data = v.data := by
  cases j with
  | objV fs => exact emailSchemaParse_ok_lower h
  | nullV => exact absurd h (by simp [validateEmailRequestParse])
  | boolV b => exact absurd h (by simp [validateEmailRequestParse])
  | numV n => exact absurd h (by simp [validateEmailRequestParse])
  | strV s => exact absurd h (by simp [validateEmailRequestParse])
  | arrV l => exact absurd h (by simp [validateEmailRequestParse])

/-! ## Claim theorems -/

/-- C1: the Email Validator succeeds on an input value iff that value is a
string whose trimmed-and-lowercased form has length between 1 and 254 and
matches the local@domain.tld shape with no embedded whitespace, and on
success it returns that trimmed-and-lowercased form. -/
theorem email_validator_accepts_iff (v : JVal) :
    ((∃ r, emailSchemaParse (some v) = .ok r) ↔
      ∃ s, v = .strV s ∧ specEmailAccepts s) ∧
    (∀ s r, v = .strV s → emailSchemaParse (some v) = .ok r →
      r = normalizeEmail s) := by
  constructor
  · constructor
    · rintro ⟨r, hr⟩
      cases v with
      | strV s =>
        obtain ⟨hfmt, hlen, -⟩ := (emailSchemaParse_ok_iff s r).mp hr
        refine ⟨s, rfl, ?_, hlen, ?_⟩
        · show 1 ≤ (normalizeEmail s).data.length
          obtain ⟨a, b, c, -, -, -, -, -, -, hl⟩ := (emailFormatOk_iff _).mp hfmt
          rw [hl]
          simp [List.length_append]
          omega
        · rw [specEmailShape]
          exact (emailFormatOk_iff _).mp hfmt
      | nullV => exact absurd hr (by simp [emailSchemaParse])
      | boolV b => exact absurd hr (by simp [emailSchemaParse])
      | numV n => exact absurd hr (by simp [emailSchemaParse])
      | arrV l => exact absurd hr (by simp [emailSchemaParse])
      | objV l => exact absurd hr (by simp [emailSchemaParse])
    · rintro ⟨s, rfl, -, h2, hshape⟩
      rw [specEmailShape] at hshape
      exact ⟨normalizeEmail s,
        (emailSchemaParse_ok_iff s _).mpr ⟨(emailFormatOk_iff _).mpr hshape, h2, rfl⟩⟩
  · rintro s r rfl hr
    exact ((emailSchemaParse_ok_iff s r).mp hr).2.2

/-- Witness for C1 at the concrete input `"  Test@Example.COM  "`. -/
theorem email_validator_accepts_iff_witness :
    emailSchemaParse (some (.strV "  Test@Example.COM  ")) = .ok "test@example.com" ∧
    "test@example.com" = normalizeEmail "  Test@Example.COM  " := by
  have hok : emailSchemaParse (some (.strV "  Test@Example.COM  ")) =
      .ok "test@example.com" := by decide
  exact ⟨hok, (email_validator_accepts_iff (.strV "  Test@Example.COM  ")).2
    "  Test@Example.COM  " "test@example.com" rfl hok⟩

/-- C6 counterexample: a string input that is empty after trimming fails
with the invalid-format category, not with the `Required` category. -/
theorem empty_email_required_counterexample :
    emailSchemaParse (some (.strV "")) = .error [.invalidFormat] ∧
    EmailIssue.required ∉ [EmailIssue.invalidFormat] := by
  constructor
  · decide
  · decide

/-- C6 amended: every string input that is empty after trimming fails with
the invalid-format category (`Invalid email format`); the `Required`
category is produced only when the email value is absent altogether. -/
theorem empty_after_trim_fails_invalid_format (s : String)
    (h : jsTrim s.data = []) :
    emailSchemaParse (some (.strV s)) = .error [.invalidFormat] ∧
    emailSchemaParse none = .error [.required] := by
  constructor
  · have hn : normalizeEmail s = "" := by
      rw [normalizeEmail, h]
      rfl
    rw [emailSchemaParse, hn]
    decide
  · rfl

/-- Witness for the amended C6 at the concrete input `"  "`. -/
theorem empty_after_trim_fails_invalid_format_witness :
    emailSchemaParse (some (.strV "  ")) = .error [.invalidFormat] ∧
    emailSchemaParse none = .error [.required] :=
  empty_after_trim_fails_invalid_format "  " (by decide)

/-- C8: the Email Validator is idempotent: if it succeeds on `x` with
normalized value `v`, running it again on `v` succeeds and returns `v`
unchanged. -/
theorem email_validator_idempotent (x v : String)
    (h : emailSchemaParse (some (.strV x)) = .ok v) :
    emailSchemaParse (some (.strV v)) = .ok v := by
  obtain ⟨hv, hfmt, hlen⟩ := parse_ok_normalize h
  have hnorm : normalizeEmail v = v := normalizeEmail_fixed hv hfmt
  refine (emailSchemaParse_ok_iff v v).mpr ⟨?_, ?_, hnorm.symm⟩
  · rw [hnorm]; exact hfmt
  · rw [hnorm]; exact hlen

/-- Witness for C8 at the concrete input `"  Test@Example.COM  "`. -/
theorem email_validator_idempotent_witness :
    emailSchemaParse (some (.strV "test@example.com")) = .ok "test@example.com" :=
  email_validator_idempotent "  Test@Example.COM  " "test@example.com" (by decide)

/-- C2: the Access Gate redirects with HTTP 307 to `/login` iff the
request path does not start with a public prefix and the session cookie is
absent, empty, or has length outside `[10, 500]`; in every other case the
request passes without redirect. -/
theorem access_gate_redirect_iff (p : String) (t : Option String) :
    (proxy p t = .redirect "/login" 307 ↔ gateRedirectCond p t) ∧
    (proxy p t = .next ↔ ¬ gateRedirectCond p t) := by
  by_cases hpub : publicRoutes.any (fun route => p.startsWith route) = true
  · have hex : ∃ route ∈ publicRoutes, p.startsWith route := by
      have := List.any_eq_true.mp hpub
      simpa using this
    have hp : proxy p t = .next := by rw [proxy.eq_def, if_pos hpub]
    rw [hp]
    constructor
    · constructor
      · intro h; exact absurd h (by simp)
      · intro hc; exact absurd hex hc.1
    · constructor
      · intro _ hc; exact hc.1 hex
      · intro _; rfl
  · have hnotex : ¬ ∃ route ∈ publicRoutes, p.startsWith route := by
      intro hex
      exact hpub (List.any_eq_true.mpr (by simpa using hex))
    cases t with
    | none =>
      have hp : proxy p none = .redirect "/login" 307 := by
        rw [proxy.eq_def, if_neg hpub]
      rw [hp]
      constructor
      · constructor
        · intro _; exact ⟨hnotex, Or.inl rfl⟩
        · intro _; rfl
      · constructor
        · intro h; exact absurd h (by simp)
        · intro hc; exact absurd ⟨hnotex, Or.inl rfl⟩ hc
    | some v =>
      have hp : proxy p (some v) =
          (if v = "" then ProxyResult.redirect "/login" 307
           else if v.length < 10 ∨ v.length > 500 then ProxyResult.redirect "/login" 307
           else ProxyResult.next) := by
        rw [proxy.eq_def, if_neg hpub]
      rw [hp]
      by_cases hv : v = ""
      · rw [if_pos hv]
        constructor
        · constructor
          · intro _; exact ⟨hnotex, Or.inr (Or.inl (by rw [hv]))⟩
          · intro _; rfl
        · constructor
          · intro h; exact absurd h (by simp)
          · intro hc; exact absurd ⟨hnotex, Or.inr (Or.inl (by rw [hv]))⟩ hc
      · rw [if_neg hv]
        by_cases hlen : v.length < 10 ∨ v.length > 500
        · rw [if_pos hlen]
          constructor
          · constructor
            · intro _; exact ⟨hnotex, Or.inr (Or.inr ⟨v, rfl, hlen⟩)⟩
            · intro _; rfl
          · constructor
            · intro h; exact absurd h (by simp)
            · intro hc; exact absurd ⟨hnotex, Or.inr (Or.inr ⟨v, rfl, hlen⟩)⟩ hc
        · rw [if_neg hlen]
          have hnc : ¬ gateRedirectCond p (some v) := by
            rintro ⟨-, hc⟩
            rcases hc with h1 | h2 | ⟨w, hw, hlenw⟩
            · exact Option.noConfusion h1
            · exact hv (Option.some.inj h2)
            · cases Option.some.inj hw
              exact hlen hlenw
          constructor
          · constructor
            · intro h; exact absurd h (by simp)
            · intro hc; exact absurd hc hnc
          · constructor
            · intro _; exact hnc
            · intro _; rfl

/-- C7: the derived client identity key is the trimmed first
comma-separated value of `x-forwarded-for` when that header is present and
its trimmed first value is nonempty; else the `x-real-ip` value when
present and nonempty; else the literal `"unknown"`. -/
theorem client_ip_derivation (xff rip : Option String) :
    getClientIp xff rip = clientIpSpec xff rip := by
  cases xff <;> rfl

/-! ## Handler projection and inversion lemmas -/

theorem POST_resp (env : Env) (req : Req) (db : DbOutcome) (limit : LimitOutcome)
    (rand : ℚ) :
    (POST env req db limit rand).resp = respOf (decisionOf env req db limit) := rfl

theorem POST_delay (env : Env) (req : Req) (db : DbOutcome) (limit : LimitOutcome)
    (rand : ℚ) :
    (POST env req db limit rand).delayMs = delayOf rand (decisionOf env req db limit) := rfl

theorem POST_path (env : Env) (req : Req) (db : DbOutcome) (limit : LimitOutcome)
    (rand : ℚ) :
    (POST env req db limit rand).path = decisionOf env req db limit := rfl

theorem POST_originChecked (env : Env) (req : Req) (db : DbOutcome)
    (limit : LimitOutcome) (rand : ℚ) :
    (POST env req db limit rand).originChecked =
      originCheckedOf env (decisionOf env req db limit) := rfl

theorem POST_limiterConsulted (env : Env) (req : Req) (db : DbOutcome)
    (limit : LimitOutcome) (rand : ℚ) :
    (POST env req db limit rand).limiterConsulted =
      limiterConsultedOf env (decisionOf env req db limit) := rfl

theorem POST_dbQueried (env : Env) (req : Req) (db : DbOutcome)
    (limit : LimitOutcome) (rand : ℚ) :
    (POST env req db limit rand).dbQueried =
      dbQueriedOf (decisionOf env req db limit) := rfl

theorem consulted_blocked_rateLimited (env : Env) (req : Req) (db : DbOutcome)
    (d : DecisionPath)
    (hd : decisionOf env req db .blocked = d)
    (hc : limiterConsultedOf env d = true) :
    d = .rateLimited := by
  rw [decisionOf.eq_def] at hd
  split at hd
  · subst hd; simp [limiterConsultedOf] at hc
  · split at hd
    · split at hd <;> (subst hd; simp [limiterConsultedOf] at hc)
    · split at hd
      · subst hd; simp [limiterConsultedOf] at hc
      · split at hd
        · subst hd; rfl
        · rename_i hnotrl
          split at hd
          · rename_i hrl2
            exact absurd hrl2.2.1 (by simp)
          · split at hd
            · subst hd
              simp [limiterConsultedOf] at hc
              exact absurd ⟨hc, rfl⟩ hnotrl
            · split at hd
              · split at hd <;>
                  (subst hd; simp [limiterConsultedOf] at hc;
                    exact absurd ⟨hc, rfl⟩ hnotrl)
              · split at hd
                · split at hd <;>
                    (subst hd; simp [limiterConsultedOf] at hc;
                      exact absurd ⟨hc, rfl⟩ hnotrl)
                · subst hd; simp [limiterConsultedOf] at hc
                  exact absurd ⟨hc, rfl⟩ hnotrl

theorem dbErr_paths (env : Env) (req : Req) (code : Option String) (msg : String)
    (limit : LimitOutcome) (d : DecisionPath) (e : String)
    (he : validateEmailRequestParse (req.rawBody.getD (.objV [])) = .ok e)
    (hd : decisionOf env req (.err code msg) limit = d)
    (hq : dbQueriedOf d = true) :
    d = (if env.nodeEnv ≠ "production" ∨ code = some "42P01" ∨
            relationMissingTest msg = true then
           (if (parseAllowedEmails env.allowedEmails).contains e
            then .fallbackAllow else .fallbackDeny)
         else .dbProdError) := by
  rw [decisionOf.eq_def] at hd
  simp only [he] at hd
  split at hd
  · split at hd <;> (subst hd; simp [dbQueriedOf] at hq)
  · split at hd
    · subst hd; simp [dbQueriedOf] at hq
    · split at hd
      · subst hd; simp [dbQueriedOf] at hq
      · split at hd
        · subst hd; simp [dbQueriedOf] at hq
        · split at hd
          · subst hd; simp [dbQueriedOf] at hq
          · exact hd.symm

/-- C3: when the strict-mode allowlist query fails, the handler falls back
to the in-memory env allowlist comparison exactly when the context is
non-production or the error signature indicates the `allowed_emails`
relation is missing (code `42P01` or a matching message); for any other
store error in production it returns HTTP 500 and never an allow/deny
response. -/
theorem store_error_fallback_policy (env : Env) (req : Req)
    (code : Option String) (msg : String) (limit : LimitOutcome) (rand : ℚ)
    (e : String)
    (he : validateEmailRequestParse (req.rawBody.getD (.objV [])) = .ok e)
    (hq : (POST env req (.err code msg) limit rand).dbQueried = true) :
    ((env.nodeEnv ≠ "production" ∨ code = some "42P01" ∨
        relationMissingTest msg = true) →
      (POST env req (.err code msg) limit rand).resp =
        (if (parseAllowedEmails env.allowedEmails).contains e
         then ⟨200, okBody⟩ else ⟨403, invalidCredentialsBody⟩)) ∧
    (¬ (env.nodeEnv ≠ "production" ∨ code = some "42P01" ∨
        relationMissingTest msg = true) →
      (POST env req (.err code msg) limit rand).resp =
        ⟨500, validationFailedBody⟩) := by
  rw [POST_dbQueried] at hq
  have hpath := dbErr_paths env req code msg limit _ e he rfl hq
  rw [POST_resp, hpath]
  constructor
  · intro hcond
    rw [if_pos hcond]
    by_cases hm : (parseAllowedEmails env.allowedEmails).contains e = true
    · rw [if_pos hm, if_pos hm]; rfl
    · rw [if_neg hm, if_neg hm]; rfl
  · intro hcond
    rw [if_neg hcond]; rfl

/-- Witness for C3: in production with a `42P01` error code the handler
falls back to the (non-matching) env list and denies with 403. -/
theorem store_error_fallback_policy_witness :
    (POST ⟨"production", "x@y.zz", none, true, false⟩
        ⟨some (.objV [("email", .strV "a@b.co")]), none, none, none⟩
        (.err (some "42P01") "boom") .allowed 0).resp =
      ⟨403, invalidCredentialsBody⟩ := by
  have h := (store_error_fallback_policy ⟨"production", "x@y.zz", none, true, false⟩
    ⟨some (.objV [("email", .strV "a@b.co")]), none, none, none⟩
    (some "42P01") "boom" .allowed 0 "a@b.co" (by decide) (by decide)).1
    (Or.inr (Or.inl rfl))
  rw [h]
  decide

/-- C4: a denial because the email is not in the persistent allowlist and
a denial via the store-error fallback produce byte-identical bodies and
identical status codes (`403`, `Invalid credentials`). -/
theorem denial_responses_indistinguishable
    (env1 : Env) (req1 : Req) (db1 : DbOutcome) (l1 : LimitOutcome) (r1 : ℚ)
    (env2 : Env) (req2 : Req) (db2 : DbOutcome) (l2 : LimitOutcome) (r2 : ℚ)
    (h1 : (POST env1 req1 db1 l1 r1).path = .dbDeny)
    (h2 : (POST env2 req2 db2 l2 r2).path = .fallbackDeny) :
    (POST env1 req1 db1 l1 r1).resp = ⟨403, invalidCredentialsBody⟩ ∧
    (POST env2 req2 db2 l2 r2).resp = ⟨403, invalidCredentialsBody⟩ ∧
    (POST env1 req1 db1 l1 r1).resp = (POST env2 req2 db2 l2 r2).resp := by
  rw [POST_path] at h1 h2
  rw [POST_resp, POST_resp, h1, h2]
  exact ⟨rfl, rfl, rfl⟩

/-- Witness for C4: a concrete allowlist-miss denial and a concrete
store-error fallback denial. -/
theorem denial_responses_indistinguishable_witness :
    (POST ⟨"production", "", none, true, false⟩
        ⟨some (.objV [("email", .strV "a@b.co")]), none, none, none⟩
        (.rows 0) .allowed 0).resp =
      ⟨403, invalidCredentialsBody⟩ ∧
    (POST ⟨"test", "", none, true, false⟩
        ⟨some (.objV [("email", .strV "a@b.co")]), none, none, none⟩
        (.err none "connection refused") .allowed 0).resp =
      ⟨403, invalidCredentialsBody⟩ ∧
    (POST ⟨"production", "", none, true, false⟩
        ⟨some (.objV [("email", .strV "a@b.co")]), none, none, none⟩
        (.rows 0) .allowed 0).resp =
      (POST ⟨"test", "", none, true, false⟩
        ⟨some (.objV [("email", .strV "a@b.co")]), none, none, none⟩
        (.err none "connection refused") .allowed 0).resp :=
  denial_responses_indistinguishable
    ⟨"production", "", none, true, false⟩
    ⟨some (.objV [("email", .strV "a@b.co")]), none, none, none⟩
    (.rows 0) .allowed 0
    ⟨"test", "", none, true, false⟩
    ⟨some (.objV [("email", .strV "a@b.co")]), none, none, none⟩
    (.err none "connection refused") .allowed 0
    (by decide) (by decide)

/-- C5: when the configured limiter (capacity 5 per 10-second sliding
window) reports the quota exceeded, the handler sleeps a jittered
`200 + 300 * rand` milliseconds, which lies in `[200, 500)` for
`rand ∈ [0, 1)`, and responds 429 `Too many requests`. -/
theorem rate_limited_delay_then_429 (env : Env) (req : Req) (db : DbOutcome)
    (limit : LimitOutcome) (rand : ℚ)
    (hb : limit = .blocked)
    (hc : (POST env req db limit rand).limiterConsulted = true)
    (h0 : 0 ≤ rand) (h1 : rand < 1) :
    (POST env req db limit rand).resp = ⟨429, tooManyBody⟩ ∧
    (POST env req db limit rand).delayMs = some (200 + 300 * rand) ∧
    (200 : ℚ) ≤ 200 + 300 * rand ∧ 200 + 300 * rand < 500 ∧
    validateEmailLimiterConfig.capacity = 5 ∧
    validateEmailLimiterConfig.windowSeconds = 10 := by
  subst hb
  rw [POST_limiterConsulted] at hc
  have hpath := consulted_blocked_rateLimited env req db _ rfl hc
  rw [POST_resp, POST_delay, hpath]
  refine ⟨rfl, rfl, by linarith, by linarith, rfl, rfl⟩

/-- Witness for C5 with `rand = 1/2`. -/
theorem rate_limited_delay_then_429_witness :
    (POST ⟨"production", "", none, true, true⟩
        ⟨some (.objV [("email", .strV "a@b.co")]), none, none, none⟩
        (.rows 1) .blocked (1/2)).resp = ⟨429, tooManyBody⟩ ∧
    (POST ⟨"production", "", none, true, true⟩
        ⟨some (.objV [("email", .strV "a@b.co")]), none, none, none⟩
        (.rows 1) .blocked (1/2)).delayMs = some (200 + 300 * (1/2)) ∧
    (200 : ℚ) ≤ 200 + 300 * (1/2) ∧ ((200 : ℚ) + 300 * (1/2)) < 500 ∧
    validateEmailLimiterConfig.capacity = 5 ∧
    validateEmailLimiterConfig.windowSeconds = 10 :=
  rate_limited_delay_then_429 ⟨"production", "", none, true, true⟩
    ⟨some (.objV [("email", .strV "a@b.co")]), none, none, none⟩
    (.rows 1) .blocked (1/2) rfl (by decide) (by norm_num) (by norm_num)

/-- C9: in a non-production context with a nonempty env allowlist, the
response to a well-formed email is decided purely by membership of the
normalized email in that list, and the origin check, the rate limiter and
the persistent store are never consulted. -/
theorem dev_fast_path_short_circuits (env : Env) (req : Req) (db : DbOutcome)
    (limit : LimitOutcome) (rand : ℚ) (e : String)
    (hnp : env.nodeEnv ≠ "production")
    (hne : parseAllowedEmails env.allowedEmails ≠ [])
    (he : validateEmailRequestParse (req.rawBody.getD (.objV [])) = .ok e) :
    (POST env req db limit rand).resp =
      (if (parseAllowedEmails env.allowedEmails).contains e
       then ⟨200, okBody⟩ else ⟨403, invalidCredentialsBody⟩) ∧
    (POST env req db limit rand).originChecked = false ∧
    (POST env req db limit rand).limiterConsulted = false ∧
    (POST env req db limit rand).dbQueried = false := by
  have hlower : (⟨jsToLower e.data⟩ : String) = e := by
    rw [requestParse_ok_lower he, string_mk_data]
  have hpath : decisionOf env req db limit =
      (if (parseAllowedEmails env.allowedEmails).contains e
       then .fastPathAllow else .fastPathDeny) := by
    rw [decisionOf.eq_def]
    simp only [he]
    rw [if_pos ⟨hnp, hne⟩, hlower]
  rw [POST_resp, POST_originChecked, POST_limiterConsulted, POST_dbQueried, hpath]
  by_cases hm : (parseAllowedEmails env.allowedEmails).contains e = true
  · rw [if_pos hm, if_pos hm]
    exact ⟨rfl, rfl, rfl, rfl⟩
  · rw [if_neg hm, if_neg hm]
    exact ⟨rfl, rfl, rfl, rfl⟩

/-- Witness for C9 mirroring the repository's test environment. -/
theorem dev_fast_path_short_circuits_witness :
    (POST ⟨"test", "test@example.com,allowed@example.com", none, true, true⟩
        ⟨some (.objV [("email", .strV "Test@Example.COM")]), none, none, none⟩
        (.rows 0) .blocked 0).resp =
      (if (parseAllowedEmails "test@example.com,allowed@example.com").contains
          "test@example.com"
       then ⟨200, okBody⟩ else ⟨403, invalidCredentialsBody⟩) ∧
    (POST ⟨"test", "test@example.com,allowed@example.com", none, true, true⟩
        ⟨some (.objV [("email", .strV "Test@Example.COM")]), none, none, none⟩
        (.rows 0) .blocked 0).originChecked = false ∧
    (POST ⟨"test", "test@example.com,allowed@example.com", none, true, true⟩
        ⟨some (.objV [("email", .strV "Test@Example.COM")]), none, none, none⟩
        (.rows 0) .blocked 0).limiterConsulted = false ∧
    (POST ⟨"test", "test@example.com,allowed@example.com", none, true, true⟩
        ⟨some (.objV [("email", .strV "Test@Example.COM")]), none, none, none⟩
        (.rows 0) .blocked 0).dbQueried = false :=
  dev_fast_path_short_circuits
    ⟨"test", "test@example.com,allowed@example.com", none, true, true⟩
    ⟨some (.objV [("email", .strV "Test@Example.COM")]), none, none, none⟩
    (.rows 0) .blocked 0 "test@example.com"
    (by decide) (by decide) (by decide)

/-- C10: a request body that fails JSON parsing is treated as the empty
object and yields the same 400 `Invalid email` response as any other
schema-failing input; it never yields a 500. -/
theorem unparseable_body_acts_as_empty_object (env : Env) (req : Req)
    (db : DbOutcome) (limit : LimitOutcome) (rand : ℚ) (v : JVal)
    (hb : req.rawBody = none)
    (hv : (validateEmailRequestParse v).isOk = false) :
    (POST env req db limit rand).resp = ⟨400, invalidEmailBody⟩ ∧
    (POST env { req with rawBody := some v } db limit rand).resp =
      ⟨400, invalidEmailBody⟩ := by
  constructor
  · have hpath : decisionOf env req db limit = .badRequest := by
      rw [decisionOf.eq_def, hb]
      rfl
    rw [POST_resp, hpath]
    rfl
  · have hpath : decisionOf env { req with rawBody := some v } db limit =
        .badRequest := by
      rw [decisionOf.eq_def]
      cases hpv : validateEmailRequestParse v with
      | error is => simp [Option.getD, hpv]
      | ok r =>
        rw [hpv] at hv
        exact absurd hv (by simp [Except.isOk, Except.toBool])
    rw [POST_resp, hpath]
    rfl

/-- Witness for C10 with an unparseable body and a schema-failing body. -/
theorem unparseable_body_acts_as_empty_object_witness :
    (POST ⟨"production", "", none, true, false⟩ ⟨none, none, none, none⟩
        (.rows 1) .allowed 0).resp = ⟨400, invalidEmailBody⟩ ∧
    (POST ⟨"production", "", none, true, false⟩
        ⟨some (.strV "not-json-object"), none, none, none⟩
        (.rows 1) .allowed 0).resp = ⟨400, invalidEmailBody⟩ :=
  unparseable_body_acts_as_empty_object ⟨"production", "", none, true, false⟩
    ⟨none, none, none, none⟩ (.rows 1) .allowed 0 (.strV "not-json-object")
    rfl (by decide)

end Pensieve
